import Mathlib

/-!
# Discord-Notifications: the notification-preference index and the message classifier

A shallow embedding of `discordNotify.go`.  The three package-level slices
`suppressEveryone`, `mentionsOnly` and `noNotifications` become the fields of an
explicit state record that every handler receives and returns.  Go strings are
`String`, Go `int` is `Int`, Go slices are `List`.  The handlers are modelled as
run one after the other (no interleaving of goroutines).  External effects
(`sendNotification`) are modelled by the Boolean result of `messageCreate`:
`true` when the handler calls `sendNotification`, `false` when it returns without
calling it; the handler calls it at most once.
-/

namespace DiscordNotify

/-! ## Data model -/

/-- The three package-level slices of `discordNotify.go` (lines 20-24). -/
structure Index where
  suppressEveryone : List String
  mentionsOnly : List String
  noNotifications : List String
deriving DecidableEq, Repr

/-- The index of a freshly started process: the three slices are nil. -/
def Index.empty : Index := ⟨[], [], []⟩

/-- The fields of `discordgo.UserGuildSettingsChannelOverride` the program reads. -/
structure UserGuildSettingsChannelOverride where
  Muted : Bool
  MessageNotifications : Int
  ChannelID : String
deriving DecidableEq, Repr

/-- The fields of `discordgo.UserGuildSettings` the program reads
(`SupressEveryone` is the library's spelling). -/
structure UserGuildSettings where
  SupressEveryone : Bool
  Muted : Bool
  MessageNotifications : Int
  GuildID : String
  ChannelOverrides : List UserGuildSettingsChannelOverride
deriving DecidableEq, Repr

/-- The fields of `discordgo.Guild` the program reads. -/
structure Guild where
  ID : String
  DefaultMessageNotifications : Int
deriving DecidableEq, Repr

/-- The fields of `discordgo.Ready` the program reads. -/
structure Ready where
  Guilds : List Guild
  UserGuildSettings : List UserGuildSettings
deriving Repr

/-- The fields of `discordgo.MessageCreate` the program reads; `Mentions` holds the
`ID` of each mentioned user, in order. -/
structure Message where
  AuthorID : String
  GuildID : String
  ChannelID : String
  MentionEveryone : Bool
  Mentions : List String
deriving DecidableEq, Repr

/-! ## Helpers of the source: `checkIn`, `multipleCheckIn`, `removeFrom` -/

/-- Source `checkIn` (lines 287-294): the first index holding `id`, or
`(false, len(ids))`. -/
def checkIn (id : String) : List String → Bool × Nat
  | [] => (false, 0)
  | checkid :: rest =>
    if checkid = id then (true, 0)
    else ((checkIn id rest).1, (checkIn id rest).2 + 1)

/-- Source `multipleCheckIn` (lines 297-304). -/
def multipleCheckIn (idOne idTwo : String) : List String → Bool
  | [] => false
  | checkid :: rest =>
    if checkid = idOne ∨ checkid = idTwo then true
    else multipleCheckIn idOne idTwo rest

/-- Source `removeFrom` (lines 307-316).  The Go function writes into the slice it is
given; the model returns the Boolean together with the slice after the two writes
`ids[index] = ids[len(ids)-1]` and `ids[len(ids)-1] = ""`. -/
def removeFrom (id : String) (ids : List String) : Bool × List String :=
  match checkIn id ids with
  | (true, index) =>
    (true, (ids.set index (ids.getD (ids.length - 1) "")).set (ids.length - 1) "")
  | (false, _) => (false, ids)

/-- The caller's idiom `if removeFrom(id, xs) { xs = xs[:len(xs)-1] }`
(lines 265-267, 270-274, 277-281): the Boolean, and the slice the global holds
afterwards. -/
def removeAndTruncate (id : String) (ids : List String) : Bool × List String :=
  match removeFrom id ids with
  | (true, ids1) => (true, ids1.take (ids1.length - 1))
  | (false, ids1) => (false, ids1)

/-! ## Settings synchroniser -/

/-- Source `sortGuildNotifications` (lines 181-191). -/
def sortGuildNotifications (st : Index) (settings : UserGuildSettings) : Index :=
  let st1 : Index :=
    if settings.Muted = true ∨ settings.MessageNotifications = 1 then
      { st with mentionsOnly := st.mentionsOnly ++ [settings.GuildID] }
    else if settings.MessageNotifications = 2 then
      { st with noNotifications := st.noNotifications ++ [settings.GuildID] }
    else st
  if settings.SupressEveryone = true then
    { st1 with suppressEveryone := st1.suppressEveryone ++ [settings.GuildID] }
  else st1

/-- Source `sortChannelNotifications` (lines 194-201). -/
def sortChannelNotifications (st : Index)
    (channel : UserGuildSettingsChannelOverride) : Index :=
  if channel.Muted = true ∨ channel.MessageNotifications = 2 then
    { st with noNotifications := st.noNotifications ++ [channel.ChannelID] }
  else if channel.MessageNotifications = 1 then
    { st with mentionsOnly := st.mentionsOnly ++ [channel.ChannelID] }
  else st

/-- The inner loop of `ready` (lines 163-176) for one guild: `index` is the loop
index of the head of the remaining settings, `len` is `len(e.UserGuildSettings)`. -/
def readyInner (guild : Guild) (len : Nat) :
    Nat → List UserGuildSettings → Index → Index
  | _, [], st => st
  | index, guildSettings :: rest, st =>
    if guild.ID = guildSettings.GuildID then
      guildSettings.ChannelOverrides.foldl sortChannelNotifications
        (sortGuildNotifications st guildSettings)
    else
      let st1 : Index :=
        if (index : Int) = (len : Int) - 1 ∧ guild.DefaultMessageNotifications = 1 then
          { st with mentionsOnly := st.mentionsOnly ++ [guild.ID] }
        else st
      readyInner guild len (index + 1) rest st1

/-- Source `ready` (lines 161-178). -/
def ready (st : Index) (e : Ready) : Index :=
  e.Guilds.foldl
    (fun acc guild =>
      readyInner guild e.UserGuildSettings.length 0 e.UserGuildSettings acc)
    st

/-- The removal of a guild's old entries in `UserGuildSettingsUpdate`
(lines 265-274): one removal from `suppressEveryone`, then one from `mentionsOnly`
or else one from `noNotifications`. -/
def removeOldGuild (st : Index) (guildID : String) : Index :=
  let st1 : Index :=
    match removeAndTruncate guildID st.suppressEveryone with
    | (true, ids) => { st with suppressEveryone := ids }
    | (false, _) => st
  match removeAndTruncate guildID st1.mentionsOnly with
  | (true, ids) => { st1 with mentionsOnly := ids }
  | (false, _) =>
    match removeAndTruncate guildID st1.noNotifications with
    | (true, ids) => { st1 with noNotifications := ids }
    | (false, _) => st1

/-- The removal of a channel's old entry in `UserGuildSettingsUpdate`
(lines 277-281): one removal from `noNotifications` or else one from
`mentionsOnly`. -/
def removeOldChannel (st : Index) (channelID : String) : Index :=
  match removeAndTruncate channelID st.noNotifications with
  | (true, ids) => { st with noNotifications := ids }
  | (false, _) =>
    match removeAndTruncate channelID st.mentionsOnly with
    | (true, ids) => { st with mentionsOnly := ids }
    | (false, _) => st

/-- One iteration of the channel loop of `UserGuildSettingsUpdate` (lines 276-283). -/
def updateChannel (st : Index) (channelSettings : UserGuildSettingsChannelOverride) :
    Index :=
  sortChannelNotifications (removeOldChannel st channelSettings.ChannelID) channelSettings

/-- Source `UserGuildSettingsUpdate` (lines 264-284). -/
def UserGuildSettingsUpdate (st : Index) (settingsUpdate : UserGuildSettings) : Index :=
  settingsUpdate.ChannelOverrides.foldl updateChannel
    (sortGuildNotifications (removeOldGuild st settingsUpdate.GuildID) settingsUpdate)

/-! ## Classifier -/

/-- The loop `for _, id := range suppressEveryone` of `messageCreate`
(lines 218-224).  Both branches of its body return, so only the first element is
looked at: `some false` is the bare `return` of line 220, `some true` is
`sendNotification` followed by `return` (lines 222-223), `none` is the loop ending
without an iteration. -/
def everyoneLoop (guildID : String) : List String → Option Bool
  | [] => none
  | id :: _ => if id = guildID then some false else some true

/-- The loop `for _, user := range m.Mentions` of `messageCreate` (lines 229-234):
`true` when it reaches `sendNotification`. -/
def mentionsLoop (userID : String) : List String → Bool
  | [] => false
  | user :: rest => if user = userID then true else mentionsLoop userID rest

/-- Source `messageCreate` (lines 203-239); `userID` is `s.State.User.ID`.  The
result is `true` exactly when the handler calls `sendNotification`. -/
def messageCreate (st : Index) (userID : String) (m : Message) : Bool :=
  if m.AuthorID = userID then false
  else if multipleCheckIn m.GuildID m.ChannelID st.noNotifications = true then false
  else
    match (if m.MentionEveryone = true then everyoneLoop m.GuildID st.suppressEveryone
           else none) with
    | some sent => sent
    | none =>
      if multipleCheckIn m.GuildID m.ChannelID st.mentionsOnly = true then
        mentionsLoop userID m.Mentions
      else true

/-! ## Event sequences -/

/-- A gateway event that changes the index. -/
inductive Event where
  | ready (e : Ready)
  | update (settingsUpdate : UserGuildSettings)

/-- The handler registered for an event. -/
def step (st : Index) : Event → Index
  | Event.ready e => ready st e
  | Event.update u => UserGuildSettingsUpdate st u

/-- The index after a sequence of events, handled in order. -/
def run (st : Index) (evs : List Event) : Index := evs.foldl step st

/-- The index after a sequence of settings-update events, handled in order. -/
def runUpdates (st : Index) (us : List UserGuildSettings) : Index :=
  us.foldl UserGuildSettingsUpdate st

/-- No identifier occurs twice in `mentionsOnly` and `noNotifications` taken
together, and none occurs twice in `suppressEveryone`. -/
def DupFree (st : Index) : Prop :=
  ∀ x : String,
    List.count x st.mentionsOnly + List.count x st.noNotifications ≤ 1 ∧
      List.count x st.suppressEveryone ≤ 1

/-- The three collections of `st2` hold every identifier as often as those of
`st1`. -/
def SameCounts (x : String) (st1 st2 : Index) : Prop :=
  List.count x st2.suppressEveryone = List.count x st1.suppressEveryone ∧
    List.count x st2.mentionsOnly = List.count x st1.mentionsOnly ∧
      List.count x st2.noNotifications = List.count x st1.noNotifications

/-- The identifiers a settings-update event carries: its guild id and the channel
ids of its overrides. -/
def updateIDs (u : UserGuildSettings) : List String :=
  u.GuildID :: u.ChannelOverrides.map (fun c => c.ChannelID)

/-- The identifiers carried by a sequence of settings-update events. -/
def eventIDs : List UserGuildSettings → List String
  | [] => []
  | u :: us => updateIDs u ++ eventIDs us

/-! ## Swap-with-last removal -/

theorem checkIn_of_not_mem (id : String) (ids : List String) (h : id ∉ ids) :
    checkIn id ids = (false, ids.length) := by
  induction ids with
  | nil => rfl
  | cons c rest ih =>
    have hc : c ≠ id := fun e => h (by simp [e])
    have hr : id ∉ rest := fun e => h (by simp [e])
    simp [checkIn, hc, ih hr]

theorem checkIn_append_cons (id : String) (a b : List String) (h : id ∉ a) :
    checkIn id (a ++ id :: b) = (true, a.length) := by
  induction a with
  | nil => simp [checkIn]
  | cons c rest ih =>
    have hc : c ≠ id := fun e => h (by simp [e])
    have hr : id ∉ rest := fun e => h (by simp [e])
    simp [checkIn, hc, ih hr]

theorem getD_length_append (p : List String) (l d : String) (n : Nat)
    (hn : n = p.length) : (p ++ [l]).getD n d = l := by
  subst hn
  simp [List.getD_eq_getElem?_getD]

theorem take_length_append (p q : List String) (n : Nat) (hn : n = p.length) :
    (p ++ q).take n = p := by
  subst hn
  simp

theorem removeAndTruncate_of_not_mem (id : String) (ids : List String) (h : id ∉ ids) :
    removeAndTruncate id ids = (false, ids) := by
  simp [removeAndTruncate, removeFrom, checkIn_of_not_mem id ids h]

/-- The target is the last element: the slot is overwritten by itself, blanked and
cut off. -/
theorem removeAndTruncate_last (id : String) (a : List String) (h : id ∉ a) :
    removeAndTruncate id (a ++ [id]) = (true, a) := by
  simp [removeAndTruncate, removeFrom, checkIn_append_cons id a [] h]

/-- The target is not the last element: the last element moves into its slot. -/
theorem removeAndTruncate_inner (id l : String) (a L : List String) (h : id ∉ a) :
    removeAndTruncate id (a ++ id :: (L ++ [l])) = (true, a ++ l :: L) := by
  have e : a ++ id :: (L ++ [l]) = (a ++ id :: L) ++ [l] := by simp
  have hlen : (a ++ id :: (L ++ [l])).length - 1 = a.length + L.length + 1 := by
    simp; omega
  have hget : (a ++ id :: (L ++ [l])).getD (a.length + L.length + 1) "" = l := by
    rw [e]; exact getD_length_append _ _ _ _ (by simp; omega)
  have hset1 : (a ++ id :: (L ++ [l])).set a.length l = a ++ l :: (L ++ [l]) := by
    simp
  have hset2 : (a ++ l :: (L ++ [l])).set (a.length + L.length + 1) "" =
      (a ++ l :: L) ++ [""] := by
    have hl : a.length + L.length + 1 = (a ++ l :: L).length := by simp; omega
    rw [hl]
    have e2 : a ++ l :: (L ++ [l]) = (a ++ l :: L) ++ [l] := by simp
    rw [e2, List.set_append_right _ _ (le_refl _)]
    simp
  have htake : ((a ++ l :: L) ++ [""]).take (((a ++ l :: L) ++ [""]).length - 1) =
      a ++ l :: L := take_length_append _ _ _ (by simp)
  unfold removeAndTruncate removeFrom
  rw [checkIn_append_cons id a (L ++ [l]) h]
  simp only [hlen, hget, hset1, hset2, htake]

/-- The Boolean of a removal says whether the id was present. -/
theorem removeAndTruncate_fst (id : String) (ids : List String) :
    (removeAndTruncate id ids).1 = true ↔ id ∈ ids := by
  constructor
  · intro h
    by_contra hn
    rw [removeAndTruncate_of_not_mem id ids hn] at h
    exact Bool.false_ne_true h
  · intro h
    obtain ⟨a, b, rfl, hna⟩ := List.eq_append_cons_of_mem h
    rcases List.eq_nil_or_concat b with rfl | ⟨L, l, rfl⟩
    · rw [removeAndTruncate_last id a hna]
    · rw [List.concat_eq_append, removeAndTruncate_inner id l a L hna]

/-- A removal changes the number of occurrences of the target by one (when it is
present) and of nothing else. -/
theorem removeAndTruncate_count (id : String) (ids : List String) (x : String) :
    List.count x (removeAndTruncate id ids).2 =
      List.count x ids - (if x = id ∧ id ∈ ids then 1 else 0) := by
  by_cases h : id ∈ ids
  · obtain ⟨a, b, rfl, hna⟩ := List.eq_append_cons_of_mem h
    rcases List.eq_nil_or_concat b with rfl | ⟨L, l, rfl⟩
    · rw [removeAndTruncate_last id a hna]
      by_cases hx : x = id
      · subst hx; simp
      · have hx2 : ¬ id = x := fun e => hx e.symm
        simp [hx, hx2, List.count_cons]
    · rw [List.concat_eq_append, removeAndTruncate_inner id l a L hna]
      by_cases hx : x = id
      · subst hx; simp [List.count_cons]
      · have hx2 : ¬ id = x := fun e => hx e.symm
        simp [hx, hx2, List.count_cons]
  · rw [removeAndTruncate_of_not_mem id ids h]
    simp [h]

/-- The two outcomes of a removal, in the form the handlers branch on. -/
theorem removeAndTruncate_cases (id : String) (ids : List String) :
    (id ∈ ids ∧ ∃ r, removeAndTruncate id ids = (true, r) ∧
        ∀ x, List.count x r = List.count x ids - (if x = id then 1 else 0)) ∨
      (id ∉ ids ∧ removeAndTruncate id ids = (false, ids)) := by
  by_cases h : id ∈ ids
  · left
    refine ⟨h, (removeAndTruncate id ids).2, ?_, ?_⟩
    · have h1 := (removeAndTruncate_fst id ids).2 h
      exact Prod.ext h1 rfl
    · intro x
      rw [removeAndTruncate_count]
      simp [h]
  · exact Or.inr ⟨h, removeAndTruncate_of_not_mem id ids h⟩

theorem count_sub_of_not_mem (x id : String) (ids : List String) (h : id ∉ ids) :
    List.count x ids - (if x = id then 1 else 0) = List.count x ids := by
  by_cases hx : x = id
  · subst hx; simp [List.count_eq_zero_of_not_mem h]
  · simp [hx]

/-! ## Occurrence counts through the synchroniser -/

theorem removeOldGuild_count (st : Index) (G x : String) :
    List.count x (removeOldGuild st G).suppressEveryone =
        List.count x st.suppressEveryone - (if x = G then 1 else 0) ∧
      List.count x (removeOldGuild st G).mentionsOnly =
        List.count x st.mentionsOnly - (if x = G then 1 else 0) ∧
      List.count x (removeOldGuild st G).noNotifications =
        List.count x st.noNotifications -
          (if x = G ∧ G ∉ st.mentionsOnly then 1 else 0) := by
  unfold removeOldGuild
  rcases removeAndTruncate_cases G st.suppressEveryone with
    ⟨_, r1, e1, c1⟩ | ⟨n1, e1⟩ <;>
  rcases removeAndTruncate_cases G st.mentionsOnly with
    ⟨m2, r2, e2, c2⟩ | ⟨n2, e2⟩ <;>
  rcases removeAndTruncate_cases G st.noNotifications with
    ⟨_, r3, e3, c3⟩ | ⟨n3, e3⟩ <;>
  simp only [e1, e2, e3] <;>
  simp [*, count_sub_of_not_mem]

theorem removeOldChannel_count (st : Index) (C x : String) :
    List.count x (removeOldChannel st C).suppressEveryone =
        List.count x st.suppressEveryone ∧
      List.count x (removeOldChannel st C).noNotifications =
        List.count x st.noNotifications - (if x = C then 1 else 0) ∧
      List.count x (removeOldChannel st C).mentionsOnly =
        List.count x st.mentionsOnly -
          (if x = C ∧ C ∉ st.noNotifications then 1 else 0) := by
  unfold removeOldChannel
  rcases removeAndTruncate_cases C st.noNotifications with
    ⟨m2, r2, e2, c2⟩ | ⟨n2, e2⟩ <;>
  rcases removeAndTruncate_cases C st.mentionsOnly with
    ⟨_, r3, e3, c3⟩ | ⟨n3, e3⟩ <;>
  simp only [e2, e3] <;>
  simp [*, count_sub_of_not_mem]

theorem sortGuildNotifications_count (st : Index) (u : UserGuildSettings) (x : String) :
    List.count x (sortGuildNotifications st u).suppressEveryone =
        List.count x st.suppressEveryone +
          (if u.SupressEveryone = true ∧ x = u.GuildID then 1 else 0) ∧
      List.count x (sortGuildNotifications st u).mentionsOnly =
        List.count x st.mentionsOnly +
          (if (u.Muted = true ∨ u.MessageNotifications = 1) ∧ x = u.GuildID
            then 1 else 0) ∧
      List.count x (sortGuildNotifications st u).noNotifications =
        List.count x st.noNotifications +
          (if ¬ (u.Muted = true ∨ u.MessageNotifications = 1) ∧
              u.MessageNotifications = 2 ∧ x = u.GuildID then 1 else 0) := by
  obtain ⟨se, mu, mn, g, co⟩ := u
  simp only [sortGuildNotifications]
  by_cases hx : x = g
  · subst hx
    cases se <;> cases mu <;> by_cases h1 : mn = 1 <;> by_cases h2 : mn = 2 <;>
      simp [h1, h2]
  · have hx2 : ¬ g = x := fun e => hx e.symm
    cases se <;> cases mu <;> by_cases h1 : mn = 1 <;> by_cases h2 : mn = 2 <;>
      simp [h1, h2, hx, hx2, List.count_cons]

theorem sortChannelNotifications_count (st : Index)
    (c : UserGuildSettingsChannelOverride) (x : String) :
    List.count x (sortChannelNotifications st c).suppressEveryone =
        List.count x st.suppressEveryone ∧
      List.count x (sortChannelNotifications st c).noNotifications =
        List.count x st.noNotifications +
          (if (c.Muted = true ∨ c.MessageNotifications = 2) ∧ x = c.ChannelID
            then 1 else 0) ∧
      List.count x (sortChannelNotifications st c).mentionsOnly =
        List.count x st.mentionsOnly +
          (if ¬ (c.Muted = true ∨ c.MessageNotifications = 2) ∧
              c.MessageNotifications = 1 ∧ x = c.ChannelID then 1 else 0) := by
  obtain ⟨mu, mn, g⟩ := c
  simp only [sortChannelNotifications]
  by_cases hx : x = g
  · subst hx
    cases mu <;> by_cases h1 : mn = 1 <;> by_cases h2 : mn = 2 <;>
      simp [h1, h2]
  · have hx2 : ¬ g = x := fun e => hx e.symm
    cases mu <;> by_cases h1 : mn = 1 <;> by_cases h2 : mn = 2 <;>
      simp [h1, h2, hx, hx2, List.count_cons]

/-! ## Frame and invariant of the settings-update handler -/

theorem count_facts (x : String) (l : List String) :
    (x ∈ l → 0 < List.count x l) ∧ (x ∉ l → List.count x l = 0) :=
  ⟨fun h => List.count_pos_iff.2 h, fun h => List.count_eq_zero_of_not_mem h⟩

theorem mem_cases (x : String) (l : List String) :
    ((x ∈ l) = True ∧ 0 < List.count x l) ∨ ((x ∈ l) = False ∧ List.count x l = 0) := by
  by_cases h : x ∈ l
  · exact Or.inl ⟨eq_true h, List.count_pos_iff.2 h⟩
  · exact Or.inr ⟨eq_false h, List.count_eq_zero_of_not_mem h⟩

theorem updateChannel_frame (st : Index) (c : UserGuildSettingsChannelOverride)
    (x : String) (hx : x ≠ c.ChannelID) : SameCounts x st (updateChannel st c) := by
  obtain ⟨a1, a2, a3⟩ := sortChannelNotifications_count
    (removeOldChannel st c.ChannelID) c x
  obtain ⟨b1, b2, b3⟩ := removeOldChannel_count st c.ChannelID x
  unfold SameCounts updateChannel
  rw [a1, a2, a3, b1, b2, b3]
  simp [hx]

theorem updateChannel_dupFree (st : Index) (c : UserGuildSettingsChannelOverride)
    (h : DupFree st) : DupFree (updateChannel st c) := by
  intro x
  by_cases hx : x = c.ChannelID
  · obtain ⟨a1, a2, a3⟩ := sortChannelNotifications_count
      (removeOldChannel st c.ChannelID) c x
    obtain ⟨b1, b2, b3⟩ := removeOldChannel_count st c.ChannelID x
    obtain ⟨i1, i2⟩ := h x
    have hcnt := count_facts c.ChannelID st.noNotifications
    unfold updateChannel
    rw [a1, a2, a3, b1, b2, b3]
    subst hx
    simp only [true_and, and_true]
    by_cases hm : c.ChannelID ∈ st.noNotifications
    · have := hcnt.1 hm
      split_ifs <;> first | omega | (exfalso; tauto)
    · have := hcnt.2 hm
      split_ifs <;> first | omega | (exfalso; tauto)
  · obtain ⟨e1, e2, e3⟩ := updateChannel_frame st c x hx
    rw [e1, e2, e3]
    exact h x

theorem SameCounts.refl (x : String) (st : Index) : SameCounts x st st :=
  ⟨rfl, rfl, rfl⟩

theorem SameCounts.trans {x : String} {s1 s2 s3 : Index} (h12 : SameCounts x s1 s2)
    (h23 : SameCounts x s2 s3) : SameCounts x s1 s3 :=
  ⟨h23.1.trans h12.1, h23.2.1.trans h12.2.1, h23.2.2.trans h12.2.2⟩

theorem foldl_updateChannel_frame (cs : List UserGuildSettingsChannelOverride)
    (st : Index) (x : String) (hx : ∀ c ∈ cs, x ≠ c.ChannelID) :
    SameCounts x st (cs.foldl updateChannel st) := by
  induction cs generalizing st with
  | nil => exact SameCounts.refl x st
  | cons c rest ih =>
    have h1 := updateChannel_frame st c x (hx c (by simp))
    have h2 := ih (updateChannel st c) (fun d hd => hx d (by simp [hd]))
    exact SameCounts.trans h1 h2

theorem foldl_updateChannel_dupFree (cs : List UserGuildSettingsChannelOverride)
    (st : Index) (h : DupFree st) : DupFree (cs.foldl updateChannel st) := by
  induction cs generalizing st with
  | nil => exact h
  | cons c rest ih => exact ih (updateChannel st c) (updateChannel_dupFree st c h)

theorem guildPhase_frame (st : Index) (u : UserGuildSettings) (x : String)
    (hx : x ≠ u.GuildID) :
    SameCounts x st (sortGuildNotifications (removeOldGuild st u.GuildID) u) := by
  obtain ⟨a1, a2, a3⟩ := sortGuildNotifications_count (removeOldGuild st u.GuildID) u x
  obtain ⟨b1, b2, b3⟩ := removeOldGuild_count st u.GuildID x
  unfold SameCounts
  rw [a1, a2, a3, b1, b2, b3]
  simp [hx]

theorem guildPhase_dupFree (st : Index) (u : UserGuildSettings) (h : DupFree st) :
    DupFree (sortGuildNotifications (removeOldGuild st u.GuildID) u) := by
  intro x
  by_cases hx : x = u.GuildID
  · obtain ⟨a1, a2, a3⟩ := sortGuildNotifications_count
      (removeOldGuild st u.GuildID) u x
    obtain ⟨b1, b2, b3⟩ := removeOldGuild_count st u.GuildID x
    obtain ⟨i1, i2⟩ := h x
    rw [a1, a2, a3, b1, b2, b3]
    subst hx
    rcases Classical.propComplete (u.Muted = true ∨ u.MessageNotifications = 1)
      with hA | hA <;>
    rcases Classical.propComplete (u.MessageNotifications = 2) with hB | hB <;>
    rcases Classical.propComplete (u.SupressEveryone = true) with hD | hD <;>
    rcases mem_cases u.GuildID st.mentionsOnly with ⟨hm, hc⟩ | ⟨hm, hc⟩ <;>
    simp only [hA, hB, hD, hm, true_and, and_true, and_self, not_true_eq_false,
      not_false_eq_true, if_true, if_false, false_and, and_false] <;>
    omega
  · obtain ⟨e1, e2, e3⟩ := guildPhase_frame st u x hx
    rw [e1, e2, e3]
    exact h x

/-- Frame of the handler: an identifier the event does not carry keeps its number
of occurrences in each collection. -/
theorem update_sameCounts (st : Index) (u : UserGuildSettings) (x : String)
    (hx : x ∉ updateIDs u) : SameCounts x st (UserGuildSettingsUpdate st u) := by
  have hG : x ≠ u.GuildID := fun e => hx (by simp [updateIDs, e])
  have hC : ∀ c ∈ u.ChannelOverrides, x ≠ c.ChannelID := by
    intro c hc e
    apply hx
    simp only [updateIDs, List.mem_cons, List.mem_map]
    exact Or.inr ⟨c, hc, e.symm⟩
  exact SameCounts.trans (guildPhase_frame st u x hG)
    (foldl_updateChannel_frame u.ChannelOverrides _ x hC)

theorem update_dupFree (st : Index) (u : UserGuildSettings) (h : DupFree st) :
    DupFree (UserGuildSettingsUpdate st u) :=
  foldl_updateChannel_dupFree u.ChannelOverrides _ (guildPhase_dupFree st u h)

theorem runUpdates_dupFree (us : List UserGuildSettings) (st : Index)
    (h : DupFree st) : DupFree (runUpdates st us) := by
  induction us generalizing st with
  | nil => exact h
  | cons u rest ih => exact ih (UserGuildSettingsUpdate st u) (update_dupFree st u h)

theorem runUpdates_sameCounts (us : List UserGuildSettings) (st : Index) (x : String)
    (hx : x ∉ eventIDs us) : SameCounts x st (runUpdates st us) := by
  induction us generalizing st with
  | nil => exact SameCounts.refl x st
  | cons u rest ih =>
    have h1 : x ∉ updateIDs u := fun e => hx (by simp [eventIDs, e])
    have h2 : x ∉ eventIDs rest := fun e => hx (by simp [eventIDs, e])
    exact SameCounts.trans (update_sameCounts st u x h1)
      (ih (UserGuildSettingsUpdate st u) h2)

theorem dupFree_empty : DupFree Index.empty := by
  intro x
  simp [Index.empty]

/-- Every element of the collections after a run of updates from the empty index
was carried by one of the events. -/
theorem runUpdates_mem_eventIDs (us : List UserGuildSettings) (x : String)
    (hx : x ∈ (runUpdates Index.empty us).suppressEveryone ∨
      x ∈ (runUpdates Index.empty us).mentionsOnly ∨
      x ∈ (runUpdates Index.empty us).noNotifications) : x ∈ eventIDs us := by
  by_contra hn
  obtain ⟨e1, e2, e3⟩ := runUpdates_sameCounts us Index.empty x hn
  have z1 : List.count x (runUpdates Index.empty us).suppressEveryone = 0 := by
    rw [e1]; simp [Index.empty]
  have z2 : List.count x (runUpdates Index.empty us).mentionsOnly = 0 := by
    rw [e2]; simp [Index.empty]
  have z3 : List.count x (runUpdates Index.empty us).noNotifications = 0 := by
    rw [e3]; simp [Index.empty]
  rcases hx with h | h | h
  · exact absurd (List.count_pos_iff.2 h) (by omega)
  · exact absurd (List.count_pos_iff.2 h) (by omega)
  · exact absurd (List.count_pos_iff.2 h) (by omega)

/-! ## The classifier's loops -/

theorem multipleCheckIn_iff (idOne idTwo : String) (ids : List String) :
    multipleCheckIn idOne idTwo ids = true ↔ idOne ∈ ids ∨ idTwo ∈ ids := by
  induction ids with
  | nil => simp [multipleCheckIn]
  | cons c rest ih =>
    unfold multipleCheckIn
    by_cases h : c = idOne ∨ c = idTwo
    · rw [if_pos h]
      rcases h with h | h
      · simp [h]
      · simp [h]
    · rw [if_neg h, ih]
      have h1 : ¬ idOne = c := fun e => h (Or.inl e.symm)
      have h2 : ¬ idTwo = c := fun e => h (Or.inr e.symm)
      simp [h1, h2]

theorem mentionsLoop_iff (userID : String) (mentions : List String) :
    mentionsLoop userID mentions = true ↔ userID ∈ mentions := by
  induction mentions with
  | nil => simp [mentionsLoop]
  | cons c rest ih =>
    unfold mentionsLoop
    by_cases h : c = userID
    · rw [if_pos h]; simp [h]
    · rw [if_neg h, ih]
      have h1 : ¬ userID = c := fun e => h e.symm
      simp [h1]

/-- The suppress-everyone check works for the first entry of `suppressEveryone`:
an `@everyone` message of another author in that guild sends nothing. -/
theorem suppressEveryone_head_suppresses (st : Index) (userID : String) (m : Message)
    (hE : m.MentionEveryone = true)
    (hH : st.suppressEveryone.head? = some m.GuildID) :
    messageCreate st userID m = false := by
  have hloop : everyoneLoop m.GuildID st.suppressEveryone = some false := by
    cases hs : st.suppressEveryone with
    | nil => rw [hs] at hH; simp at hH
    | cons id rest =>
      rw [hs] at hH
      simp only [List.head?_cons, Option.some.injEq] at hH
      simp [everyoneLoop, hH]
  unfold messageCreate
  rw [hE, hloop]
  simp

/-! ## Claims about the classifier -/

/-- C1 (failing input): `suppressEveryone = ["A", "G"]` holds the guild id `"G"`
in second place; a message of another author in guild `"G"` with
`MentionEveryone = true` and no explicit mention, in an index that mutes nothing,
makes `messageCreate` send a notification, because the loop over
`suppressEveryone` returns during its first iteration. -/
theorem suppressEveryone_second_entry_sends :
    "other" ≠ "me" ∧ "G" ∈ (Index.mk ["A", "G"] [] []).suppressEveryone ∧
      "me" ∉ (Message.mk "other" "G" "C" true []).Mentions ∧
      messageCreate (Index.mk ["A", "G"] [] []) "me"
        (Message.mk "other" "G" "C" true []) = true := by
  decide

/-- C2 (counterexample): guild `"G"` is in `mentionsOnly`, the message does not
mention the current user, yet with `MentionEveryone = true` and
`suppressEveryone = ["X"]` the handler sends a notification. -/
theorem mentionsOnly_everyone_counterexample :
    "other" ≠ "me" ∧ "G" ∈ (Index.mk ["X"] ["G"] []).mentionsOnly ∧
      "me" ∉ (Message.mk "other" "G" "C" true []).Mentions ∧
      messageCreate (Index.mk ["X"] ["G"] []) "me"
        (Message.mk "other" "G" "C" true []) = true := by
  decide

/-- C2 (amended): for every index and every message of another author whose guild
id or channel id is in `mentionsOnly` and whose explicit mentions do not contain the
current user, `messageCreate` sends no notification when `MentionEveryone` is false
(whatever `suppressEveryone` holds), and also when the guild id is the first entry
of `suppressEveryone`. -/
theorem mentionsOnly_suppresses (st : Index) (userID : String) (m : Message)
    (hA : m.AuthorID ≠ userID)
    (hM : m.GuildID ∈ st.mentionsOnly ∨ m.ChannelID ∈ st.mentionsOnly)
    (hU : userID ∉ m.Mentions)
    (hE : m.MentionEveryone = false ∨ st.suppressEveryone.head? = some m.GuildID) :
    messageCreate st userID m = false := by
  have hml : mentionsLoop userID m.Mentions = false := by
    cases h : mentionsLoop userID m.Mentions
    · rfl
    · exact absurd ((mentionsLoop_iff _ _).1 h) hU
  have hmo : multipleCheckIn m.GuildID m.ChannelID st.mentionsOnly = true :=
    (multipleCheckIn_iff _ _ _).2 hM
  unfold messageCreate
  rw [if_neg hA]
  split_ifs with h1 h2
  · rfl
  · cases hs : st.suppressEveryone with
    | nil => simp [everyoneLoop, hmo, hml]
    | cons id rest =>
      rcases hE with hE | hE
      · rw [hE] at h2; exact absurd h2 (by decide)
      · rw [hs] at hE
        simp only [List.head?_cons, Option.some.injEq] at hE
        simp [everyoneLoop, hE]
  · simp [hmo, hml]

/-- C2 (witness): the amended statement at a concrete index and message. -/
theorem mentionsOnly_suppresses_witness :
    messageCreate (Index.mk ["X"] ["G"] []) "me"
      (Message.mk "other" "G" "C" false ["you"]) = false :=
  mentionsOnly_suppresses (Index.mk ["X"] ["G"] []) "me"
    (Message.mk "other" "G" "C" false ["you"]) (by decide) (by decide) (by decide)
    (by decide)

/-- C3: for every index and every message, if the message's guild id or channel id
is in `noNotifications`, `messageCreate` sends no notification, whatever the
message mentions. -/
theorem mute_takes_precedence (st : Index) (userID : String) (m : Message)
    (h : m.GuildID ∈ st.noNotifications ∨ m.ChannelID ∈ st.noNotifications) :
    messageCreate st userID m = false := by
  have hmo : multipleCheckIn m.GuildID m.ChannelID st.noNotifications = true :=
    (multipleCheckIn_iff _ _ _).2 h
  unfold messageCreate
  split_ifs
  · rfl
  · rfl

/-- C3 (witness): a muted channel, a message mentioning the user and everyone. -/
theorem mute_takes_precedence_witness :
    messageCreate (Index.mk [] ["G"] ["A", "C"]) "me"
      (Message.mk "other" "G" "C" true ["me"]) = false :=
  mute_takes_precedence (Index.mk [] ["G"] ["A", "C"]) "me"
    (Message.mk "other" "G" "C" true ["me"]) (by decide)

/-- C4: for every index and every message with `MentionEveryone = false` of another
author whose guild id and channel id are both absent from `noNotifications`,
`messageCreate` sends a notification if and only if neither id is in `mentionsOnly`
or the current user is among the explicit mentions. -/
theorem delivery_rule_without_everyone (st : Index) (userID : String) (m : Message)
    (hE : m.MentionEveryone = false) (hA : m.AuthorID ≠ userID)
    (hG : m.GuildID ∉ st.noNotifications) (hC : m.ChannelID ∉ st.noNotifications) :
    messageCreate st userID m = true ↔
      ((m.GuildID ∉ st.mentionsOnly ∧ m.ChannelID ∉ st.mentionsOnly) ∨
        userID ∈ m.Mentions) := by
  have hnn : ¬ multipleCheckIn m.GuildID m.ChannelID st.noNotifications = true := by
    rw [multipleCheckIn_iff]
    exact fun h => h.elim hG hC
  unfold messageCreate
  rw [if_neg hA, if_neg hnn, hE]
  simp only [Bool.false_eq_true, if_false]
  by_cases hmo : multipleCheckIn m.GuildID m.ChannelID st.mentionsOnly = true
  · rw [if_pos hmo, mentionsLoop_iff]
    have hor := (multipleCheckIn_iff _ _ _).1 hmo
    constructor
    · exact fun h => Or.inr h
    · rintro (⟨h1, h2⟩ | h)
      · exact absurd hor (fun h => h.elim h1 h2)
      · exact h
  · rw [if_neg hmo]
    rw [multipleCheckIn_iff] at hmo
    simp only [true_iff]
    exact Or.inl ⟨fun h => hmo (Or.inl h), fun h => hmo (Or.inr h)⟩

/-- C4 (witness): a mentions-only guild and a message that mentions the user. -/
theorem delivery_rule_without_everyone_witness :
    messageCreate (Index.mk ["G"] ["G"] ["A"]) "me"
        (Message.mk "other" "G" "C" false ["you", "me"]) = true ↔
      (("G" ∉ ["G"] ∧ "C" ∉ ["G"]) ∨ "me" ∈ ["you", "me"]) :=
  delivery_rule_without_everyone (Index.mk ["G"] ["G"] ["A"]) "me"
    (Message.mk "other" "G" "C" false ["you", "me"]) (by decide) (by decide)
    (by decide) (by decide)

/-! ## The ready handler only appends -/

theorem sortGuildNotifications_mentionsOnly_mono (st : Index) (u : UserGuildSettings)
    (x : String) (h : x ∈ st.mentionsOnly) :
    x ∈ (sortGuildNotifications st u).mentionsOnly := by
  have hc := (sortGuildNotifications_count st u x).2.1
  have hp := List.count_pos_iff.2 h
  exact List.count_pos_iff.1 (by omega)

theorem sortChannelNotifications_mentionsOnly_mono (st : Index)
    (c : UserGuildSettingsChannelOverride) (x : String) (h : x ∈ st.mentionsOnly) :
    x ∈ (sortChannelNotifications st c).mentionsOnly := by
  have hc := (sortChannelNotifications_count st c x).2.2
  have hp := List.count_pos_iff.2 h
  exact List.count_pos_iff.1 (by omega)

theorem foldl_sortChannel_mentionsOnly_mono (cs : List UserGuildSettingsChannelOverride)
    (st : Index) (x : String) (h : x ∈ st.mentionsOnly) :
    x ∈ (cs.foldl sortChannelNotifications st).mentionsOnly := by
  induction cs generalizing st with
  | nil => exact h
  | cons c rest ih =>
    exact ih _ (sortChannelNotifications_mentionsOnly_mono st c x h)

theorem readyInner_mentionsOnly_mono (guild : Guild) (len : Nat)
    (l : List UserGuildSettings) (index : Nat) (st : Index) (x : String)
    (h : x ∈ st.mentionsOnly) : x ∈ (readyInner guild len index l st).mentionsOnly := by
  induction l generalizing index st with
  | nil => exact h
  | cons gs rest ih =>
    unfold readyInner
    split_ifs with h1 h2
    · exact foldl_sortChannel_mentionsOnly_mono _ _ x
        (sortGuildNotifications_mentionsOnly_mono st gs x h)
    · exact ih _ _ (by simp [h])
    · exact ih _ _ h

theorem foldl_readyInner_mentionsOnly_mono (gl : List Guild)
    (l : List UserGuildSettings) (st : Index) (x : String) (h : x ∈ st.mentionsOnly) :
    x ∈ (gl.foldl (fun acc guild => readyInner guild l.length 0 l acc)
      st).mentionsOnly := by
  induction gl generalizing st with
  | nil => exact h
  | cons g rest ih => exact ih _ (readyInner_mentionsOnly_mono g _ l 0 st x h)

/-- When the remaining settings are not empty, end at the last index and hold no
record of the guild, the inner loop reaches the fallback of lines 174-175. -/
theorem readyInner_fallback (guild : Guild) (len : Nat) (l : List UserGuildSettings)
    (index : Nat) (st : Index) (hne : l ≠ [])
    (hlen : index + l.length = len) (hno : ∀ gs ∈ l, gs.GuildID ≠ guild.ID)
    (hd : guild.DefaultMessageNotifications = 1) :
    guild.ID ∈ (readyInner guild len index l st).mentionsOnly := by
  induction l generalizing index st with
  | nil => exact absurd rfl hne
  | cons gs rest ih =>
    have h1 : ¬ guild.ID = gs.GuildID := fun e => hno gs (by simp) e.symm
    unfold readyInner
    rw [if_neg h1]
    cases rest with
    | nil =>
      have hidx : (index : Int) = (len : Int) - 1 := by
        simp only [List.length_cons, List.length_nil] at hlen
        omega
      simp [readyInner, hidx, hd]
    | cons gs2 rest2 =>
      apply ih
      · simp
      · simp only [List.length_cons] at hlen ⊢
        omega
      · exact fun g hg => hno g (by simp [hg])

/-- The fallback of `ready` works whenever the settings list is not empty: a guild
of the event without a settings record and with default level 1 ends up in
`mentionsOnly`, from every starting index. -/
theorem ready_fallback_of_settings_nonempty (st : Index) (e : Ready) (guild : Guild)
    (hg : guild ∈ e.Guilds) (hne : e.UserGuildSettings ≠ [])
    (hno : ∀ gs ∈ e.UserGuildSettings, gs.GuildID ≠ guild.ID)
    (hd : guild.DefaultMessageNotifications = 1) :
    guild.ID ∈ (ready st e).mentionsOnly := by
  unfold ready
  generalize e.Guilds = gl at hg
  induction gl generalizing st with
  | nil => simp at hg
  | cons g rest ih =>
    rcases List.mem_cons.1 hg with h | h
    · subst h
      exact foldl_readyInner_mentionsOnly_mono rest e.UserGuildSettings _ _
        (readyInner_fallback guild _ e.UserGuildSettings 0 st hne (by simp) hno hd)
    · exact ih _ h

/-- On a duplicate-free index the reset works: a settings update with level 0,
`Muted = false` and no channel overrides leaves the guild in neither
`mentionsOnly` nor `noNotifications`. -/
theorem reset_clears_of_dupFree (st : Index) (u : UserGuildSettings) (h : DupFree st)
    (hL : u.MessageNotifications = 0) (hM : u.Muted = false)
    (hC : u.ChannelOverrides = []) :
    u.GuildID ∉ (UserGuildSettingsUpdate st u).mentionsOnly ∧
      u.GuildID ∉ (UserGuildSettingsUpdate st u).noNotifications := by
  have hupd : UserGuildSettingsUpdate st u =
      sortGuildNotifications (removeOldGuild st u.GuildID) u := by
    unfold UserGuildSettingsUpdate
    rw [hC]
    rfl
  have hA : (u.Muted = true ∨ u.MessageNotifications = 1) = False := by
    rw [hM, hL]; simp
  have hB : (u.MessageNotifications = 2) = False := by
    rw [hL]; simp
  obtain ⟨_, a2, a3⟩ := sortGuildNotifications_count
    (removeOldGuild st u.GuildID) u u.GuildID
  obtain ⟨_, b2, b3⟩ := removeOldGuild_count st u.GuildID u.GuildID
  obtain ⟨i1, _⟩ := h u.GuildID
  rw [b2] at a2
  rw [b3] at a3
  simp only [hA, hB, true_and, and_true, and_self, not_false_eq_true, if_true,
    if_false, false_and, and_false, Nat.add_zero] at a2 a3
  rw [hupd]
  constructor
  · intro hmem
    have := List.count_pos_iff.2 hmem
    omega
  · intro hmem
    have hp := List.count_pos_iff.2 hmem
    rcases mem_cases u.GuildID st.mentionsOnly with ⟨hm, hc⟩ | ⟨hm, hc⟩
    · simp only [hm, not_true_eq_false, if_false] at a3
      omega
    · simp only [hm, not_false_eq_true, if_true] at a3
      omega

/-! ## Claims about the settings synchroniser -/

/-- C5 (failing input): a ready event with the single guild `"G"`, whose
`DefaultMessageNotifications` is 1, and an empty per-guild settings list leaves the
index empty: the fallback sits inside the loop over the settings list, which has no
iteration, so `"G"` is not added to `mentionsOnly`. -/
theorem ready_empty_settings_skips_fallback :
    (∀ gs ∈ (Ready.mk [Guild.mk "G" 1] []).UserGuildSettings, gs.GuildID ≠ "G") ∧
      ready Index.empty (Ready.mk [Guild.mk "G" 1] []) = Index.empty ∧
      "G" ∉ (ready Index.empty (Ready.mk [Guild.mk "G" 1] [])).mentionsOnly := by
  decide

/-- C6 (counterexample): guild settings with level 2 and `Muted = true`, applied to
the empty index, put the guild in `mentionsOnly` and not in `noNotifications`, both
through `sortGuildNotifications` and through the settings-update handler. -/
theorem guild_level_mute_with_muted_flag_counterexample :
    "G" ∉ (sortGuildNotifications Index.empty
        (UserGuildSettings.mk false true 2 "G" [])).noNotifications ∧
      "G" ∉ (UserGuildSettingsUpdate Index.empty
        (UserGuildSettings.mk false true 2 "G" [])).noNotifications ∧
      "G" ∈ (UserGuildSettingsUpdate Index.empty
        (UserGuildSettings.mk false true 2 "G" [])).mentionsOnly := by
  decide

/-- C6 (amended): for every index, after guild settings with notification level 2
and `Muted = false` are applied, by `sortGuildNotifications` or by the
settings-update handler with no channel overrides, the guild id is a member of
`noNotifications`, for every value of the suppress-everyone flag; and when the
guild id was not in `mentionsOnly` before, the handler does not put it there. -/
theorem guild_level_mute_classifies_muted (st : Index) (u : UserGuildSettings)
    (hL : u.MessageNotifications = 2) (hM : u.Muted = false)
    (hC : u.ChannelOverrides = []) :
    u.GuildID ∈ (sortGuildNotifications st u).noNotifications ∧
      u.GuildID ∈ (UserGuildSettingsUpdate st u).noNotifications ∧
      (u.GuildID ∉ st.mentionsOnly →
        u.GuildID ∉ (UserGuildSettingsUpdate st u).mentionsOnly) := by
  have hA : (u.Muted = true ∨ u.MessageNotifications = 1) = False := by
    rw [hM, hL]; simp
  have key : ∀ s : Index,
      List.count u.GuildID (sortGuildNotifications s u).noNotifications =
        List.count u.GuildID s.noNotifications + 1 ∧
      List.count u.GuildID (sortGuildNotifications s u).mentionsOnly =
        List.count u.GuildID s.mentionsOnly := by
    intro s
    obtain ⟨_, a2, a3⟩ := sortGuildNotifications_count s u u.GuildID
    rw [a2, a3]
    simp only [hA, eq_true hL, not_false_eq_true, true_and, and_true, and_self,
      if_true, if_false, false_and, Nat.add_zero]
  have hupd : UserGuildSettingsUpdate st u =
      sortGuildNotifications (removeOldGuild st u.GuildID) u := by
    unfold UserGuildSettingsUpdate
    rw [hC]
    rfl
  refine ⟨?_, ?_, ?_⟩
  · apply List.count_pos_iff.1
    rw [(key st).1]
    omega
  · apply List.count_pos_iff.1
    rw [hupd, (key _).1]
    omega
  · intro hn
    have h0 := List.count_eq_zero_of_not_mem hn
    have hr := (removeOldGuild_count st u.GuildID u.GuildID).2.1
    intro hmem
    have hp := List.count_pos_iff.2 hmem
    rw [hupd, (key _).2, hr, h0] at hp
    omega

/-- C6 (witness): level 2, not muted, suppress-everyone set, from an index that
holds other ids. -/
theorem guild_level_mute_classifies_muted_witness :
    "G" ∈ (sortGuildNotifications (Index.mk ["A"] ["B"] ["C"])
        (UserGuildSettings.mk true false 2 "G" [])).noNotifications ∧
      "G" ∈ (UserGuildSettingsUpdate (Index.mk ["A"] ["B"] ["C"])
        (UserGuildSettings.mk true false 2 "G" [])).noNotifications ∧
      ("G" ∉ (Index.mk ["A"] ["B"] ["C"]).mentionsOnly →
        "G" ∉ (UserGuildSettingsUpdate (Index.mk ["A"] ["B"] ["C"])
          (UserGuildSettings.mk true false 2 "G" [])).mentionsOnly) :=
  guild_level_mute_classifies_muted (Index.mk ["A"] ["B"] ["C"])
    (UserGuildSettings.mk true false 2 "G" []) rfl rfl rfl

/-- C7 (failing input): two ready events for the same guild `"G"`, the first with
notification level 1 and the second with level 2, starting from the empty index,
leave `"G"` both in `mentionsOnly` and in `noNotifications`. -/
theorem two_ready_events_break_mutual_exclusion :
    "G" ∈ (run Index.empty
        [Event.ready (Ready.mk [Guild.mk "G" 0] [UserGuildSettings.mk false false 1 "G" []]),
         Event.ready (Ready.mk [Guild.mk "G" 0] [UserGuildSettings.mk false false 2 "G" []])
        ]).mentionsOnly ∧
      "G" ∈ (run Index.empty
        [Event.ready (Ready.mk [Guild.mk "G" 0] [UserGuildSettings.mk false false 1 "G" []]),
         Event.ready (Ready.mk [Guild.mk "G" 0] [UserGuildSettings.mk false false 2 "G" []])
        ]).noNotifications := by
  decide

/-- C8 (failing input): after two identical ready events for guild `"G"` with
notification level 1, a settings update for `"G"` with level 0, `Muted = false` and
no channel overrides removes one of the two entries and leaves `"G"` in
`mentionsOnly`. -/
theorem reset_after_repeated_ready_keeps_membership :
    (run Index.empty
        [Event.ready (Ready.mk [Guild.mk "G" 0] [UserGuildSettings.mk false false 1 "G" []]),
         Event.ready (Ready.mk [Guild.mk "G" 0] [UserGuildSettings.mk false false 1 "G" []])
        ]).mentionsOnly = ["G", "G"] ∧
      "G" ∈ (run Index.empty
        [Event.ready (Ready.mk [Guild.mk "G" 0] [UserGuildSettings.mk false false 1 "G" []]),
         Event.ready (Ready.mk [Guild.mk "G" 0] [UserGuildSettings.mk false false 1 "G" []]),
         Event.update (UserGuildSettings.mk false false 0 "G" [])]).mentionsOnly := by
  decide

/-- An empty string in a collection is an event's own id: a settings update whose
guild id is the empty string and whose `Muted` flag is set, applied to the empty
index, makes no removal (every `removeFrom` returns false on an empty slice) and
appends its guild id to `mentionsOnly` at line 184. -/
theorem update_with_empty_guild_id_appends_it :
    removeFrom "" Index.empty.suppressEveryone = (false, []) ∧
      removeFrom "" Index.empty.mentionsOnly = (false, []) ∧
      removeFrom "" Index.empty.noNotifications = (false, []) ∧
      (runUpdates Index.empty
        [UserGuildSettings.mk false true 0 "" []]).mentionsOnly = [""] := by
  decide

/-- C9: starting from the empty index, after any finite sequence of
settings-update events, no identifier occurs twice in the concatenation of
`mentionsOnly` and `noNotifications`, none occurs twice in `suppressEveryone`, and
no collection contains the empty-string placeholder written by `removeFrom`: every
element of the three collections is the guild id or a channel-override id of one of
the events, so the empty string is in none of them unless an event carried it as
its own id. -/
theorem update_path_duplicate_free (us : List UserGuildSettings) :
    ((runUpdates Index.empty us).mentionsOnly ++
        (runUpdates Index.empty us).noNotifications).Nodup ∧
      (runUpdates Index.empty us).suppressEveryone.Nodup ∧
      (∀ x : String,
        x ∈ (runUpdates Index.empty us).suppressEveryone ∨
          x ∈ (runUpdates Index.empty us).mentionsOnly ∨
          x ∈ (runUpdates Index.empty us).noNotifications → x ∈ eventIDs us) ∧
      ("" ∉ eventIDs us →
        "" ∉ (runUpdates Index.empty us).suppressEveryone ∧
          "" ∉ (runUpdates Index.empty us).mentionsOnly ∧
          "" ∉ (runUpdates Index.empty us).noNotifications) := by
  have hd := runUpdates_dupFree us Index.empty dupFree_empty
  have hm := runUpdates_mem_eventIDs us
  refine ⟨?_, ?_, hm, ?_⟩
  · rw [List.nodup_iff_count_le_one]
    intro x
    rw [List.count_append]
    exact (hd x).1
  · rw [List.nodup_iff_count_le_one]
    exact fun x => (hd x).2
  · intro h0
    exact ⟨fun h => h0 (hm "" (Or.inl h)), fun h => h0 (hm "" (Or.inr (Or.inl h))),
      fun h => h0 (hm "" (Or.inr (Or.inr h)))⟩

/-- C9 (witness): three updates that move guild `"G"` and channel `"C"` between
the collections; no empty id is carried, so no collection holds the empty string. -/
theorem update_path_duplicate_free_witness :
    "" ∉ (runUpdates Index.empty
        [UserGuildSettings.mk true false 1 "G"
            [UserGuildSettingsChannelOverride.mk true 0 "C"],
         UserGuildSettings.mk true false 2 "H" [],
         UserGuildSettings.mk false false 2 "G"
            [UserGuildSettingsChannelOverride.mk false 1 "C"]]).suppressEveryone ∧
      "" ∉ (runUpdates Index.empty
        [UserGuildSettings.mk true false 1 "G"
            [UserGuildSettingsChannelOverride.mk true 0 "C"],
         UserGuildSettings.mk true false 2 "H" [],
         UserGuildSettings.mk false false 2 "G"
            [UserGuildSettingsChannelOverride.mk false 1 "C"]]).mentionsOnly ∧
      "" ∉ (runUpdates Index.empty
        [UserGuildSettings.mk true false 1 "G"
            [UserGuildSettingsChannelOverride.mk true 0 "C"],
         UserGuildSettings.mk true false 2 "H" [],
         UserGuildSettings.mk false false 2 "G"
            [UserGuildSettingsChannelOverride.mk false 1 "C"]]).noNotifications :=
  (update_path_duplicate_free
    [UserGuildSettings.mk true false 1 "G"
        [UserGuildSettingsChannelOverride.mk true 0 "C"],
     UserGuildSettings.mk true false 2 "H" [],
     UserGuildSettings.mk false false 2 "G"
        [UserGuildSettingsChannelOverride.mk false 1 "C"]]).2.2.2 (by decide)

/-- C10: for every index and every settings-update event, an identifier other than
the event's guild id and the channel ids of its overrides occurs in each of
`suppressEveryone`, `mentionsOnly` and `noNotifications` as often after the handler
as before; and a removal (swap with the last slot, then truncation) of an id that
is present reports `true`, deletes exactly one occurrence of that id and changes
the number of occurrences of no other element. -/
theorem settings_update_frame (st : Index) (u : UserGuildSettings) (x : String)
    (hG : x ≠ u.GuildID) (hC : ∀ c ∈ u.ChannelOverrides, x ≠ c.ChannelID) :
    (List.count x (UserGuildSettingsUpdate st u).suppressEveryone =
        List.count x st.suppressEveryone ∧
      List.count x (UserGuildSettingsUpdate st u).mentionsOnly =
        List.count x st.mentionsOnly ∧
      List.count x (UserGuildSettingsUpdate st u).noNotifications =
        List.count x st.noNotifications) ∧
    (∀ (id : String) (ids : List String), id ∈ ids →
      (removeAndTruncate id ids).1 = true ∧
        List.count id (removeAndTruncate id ids).2 + 1 = List.count id ids ∧
        ∀ y : String, y ≠ id →
          List.count y (removeAndTruncate id ids).2 = List.count y ids) := by
  constructor
  · have hx : x ∉ updateIDs u := by
      simp only [updateIDs, List.mem_cons, List.mem_map, not_or, not_exists, not_and]
      exact ⟨hG, fun c hc e => hC c hc e.symm⟩
    exact update_sameCounts st u x hx
  · intro id ids hmem
    refine ⟨(removeAndTruncate_fst id ids).2 hmem, ?_, ?_⟩
    · have hp := List.count_pos_iff.2 hmem
      rw [removeAndTruncate_count]
      simp only [hmem, and_self, if_true]
      omega
    · intro y hy
      rw [removeAndTruncate_count]
      simp [hy]

/-- C10 (witness): the id `"a"` keeps its occurrences through an update of guild
`"G"` with an override for channel `"c1"`, although the removals move it. -/
theorem settings_update_frame_witness :
    List.count "a" (UserGuildSettingsUpdate (Index.mk ["G", "a"] ["G", "b", "a"]
        ["c1", "a", "b"])
      (UserGuildSettings.mk false false 2 "G"
        [UserGuildSettingsChannelOverride.mk false 1 "c1"])).mentionsOnly =
      List.count "a" (Index.mk ["G", "a"] ["G", "b", "a"] ["c1", "a", "b"]).mentionsOnly :=
  (settings_update_frame (Index.mk ["G", "a"] ["G", "b", "a"] ["c1", "a", "b"])
    (UserGuildSettings.mk false false 2 "G"
      [UserGuildSettingsChannelOverride.mk false 1 "c1"]) "a" (by decide)
    (by decide)).1.2.1

end DiscordNotify
